import Mathlib

/-!
Verification of the Radio 357 podcast crawler / feed-synthesis scripts.

The Python sources are embedded shallowly:
* Python strings are `List Char` (`PyStr`) where we reason about their
  structure (guids), and Lean `String` where they are opaque keys;
* dictionaries with insertion order are association lists;
* network responses, the token file and the local filesystem are explicit
  parameters ("worlds"), so every function is total and executable;
* `None` values and absent JSON fields are `Option`.
-/

namespace Radio357

/-- Python strings, modelled as lists of characters. -/
abbrev PyStr := List Char

/-- Python `str.startswith`: the first argument is the candidate start. -/
def pyStartswith : PyStr → PyStr → Bool
  | [], _ => true
  | _ :: _, [] => false
  | p :: ps, c :: cs => p = c && pyStartswith ps cs

/-- Python `str.split(sep)` for a single-character separator: splitting the
empty string yields `[[]]`, and consecutive separators yield empty fields,
exactly as in Python. -/
def splitOnChar (c : Char) : PyStr → List PyStr
  | [] => [[]]
  | x :: xs =>
    match splitOnChar c xs with
    | [] => [[]]
    | h :: t => if x = c then [] :: h :: t else (x :: h) :: t

/-- The two guid shapes emitted by the feed builders: a single-program feed
(`generate_rss_feed.py`) or an author feed (`generate_author_feed_by_id.py`). -/
inductive SourceKind where
  | program
  | author
deriving DecidableEq

/-- The guid emitted for one feed item.  From `generate_rss_feed.py` line 261,
`item_guid.text = f"radio357-\x7bprogram_id\x7d-\x7bepisode_id\x7d"`, and
`generate_author_feed_by_id.py` line 498,
`item_guid.text = f"radio357-author-\x7bauthor_id\x7d-\x7bepisode_id\x7d"`. -/
def guidOf : SourceKind → PyStr → PyStr → PyStr
  | .program, owner, epId => "radio357-".toList ++ owner ++ "-".toList ++ epId
  | .author, owner, epId => "radio357-author-".toList ++ owner ++ "-".toList ++ epId

/-- `extract_podcast_id_from_guid` from `download_from_feed.py` lines 156-170:
empty guid gives `None`; a guid starting with `radio357-` is split on `-` and
the last part is returned; anything else gives `None`. -/
def extract_podcast_id_from_guid (guid : PyStr) : Option PyStr :=
  if guid = [] then none
  else if pyStartswith "radio357-".toList guid then
    let parts := splitOnChar '-' guid
    if 2 ≤ parts.length then some (parts.getLastD []) else none
  else none

/-- Reference notion used by claim C10: the substring of `s` after the final
occurrence of `c` (all of `s` when `c` does not occur). -/
def afterLastSep (c : Char) (s : PyStr) : PyStr :=
  (s.reverse.takeWhile (fun x => x ≠ c)).reverse

/-- The part of a guid before the final `-episode_id` block. -/
def guidPre : SourceKind → PyStr → PyStr
  | .program, owner => "radio357-".toList ++ owner
  | .author, owner => "radio357-author-".toList ++ owner

/-! ### Crawl pagination (claim C1)

`fetch_all_episodes` (`generate_rss_feed.py` lines 120-147) and
`fetch_all_episodes_from_program` (`generate_author_feed_by_id.py` lines
120-146, `list_authors.py` lines 30-56) run the same loop.  The network is
modelled as the sequence of page responses: `none` stands for a transport
exception or a response without the `_embedded.podcasts` key (both `break`),
`some p` for a page holding the episode list `p`. -/

/-- What unlimited pagination would produce over the same page responses:
keep concatenating pages until an empty page, a page shorter than the
page-size ceiling 250, a missing-payload response, or the end. -/
def crawlPages {α : Type _} : List (Option (List α)) → List α
  | [] => []
  | none :: _ => []
  | some p :: ps => p ++ (if p.length < 250 then [] else crawlPages ps)

/-- The `while len(all_episodes) < max_episodes` loop shared by
`fetch_all_episodes` and `fetch_all_episodes_from_program`. -/
def fetchEpisodesLoop {α : Type _} (max : Nat) : List α → List (Option (List α)) → List α
  | acc, [] => acc
  | acc, none :: _ => acc
  | acc, some p :: ps =>
    if acc.length < max then
      if p.isEmpty then acc
      else if p.length < 250 then acc ++ p
      else fetchEpisodesLoop max (acc ++ p) ps
    else acc

/-- `fetch_all_episodes(program_id, max_episodes)`: run the bounded loop and
return `all_episodes[:max_episodes]`. -/
def fetch_all_episodes {α : Type _} (pages : List (Option (List α)))
    (max_episodes : Nat) : List α :=
  (fetchEpisodesLoop max_episodes [] pages).take max_episodes

/-- `fetch_all_episodes_from_program(program_id, max_episodes_per_program)`:
the identical loop in `generate_author_feed_by_id.py` / `list_authors.py`. -/
def fetch_all_episodes_from_program {α : Type _} (pages : List (Option (List α)))
    (max_episodes_per_program : Nat) : List α :=
  (fetchEpisodesLoop max_episodes_per_program [] pages).take max_episodes_per_program

/-- The two pages of the C1 scenario: 250 episodes, then 10 more. -/
def scenarioPages : List (Option (List Nat)) :=
  [some (List.range 250), some ((List.range 10).map (fun i => 250 + i))]

/-! ### The episode record and the feed builders (claims C4, C5, C6) -/

/-- A JSON value found in the `publishedAt` field: the API delivers an
integer epoch-millis timestamp, but the scripts also guard for non-integer
values. -/
inductive PubVal where
  | int (n : Int)
  | str (s : String)
deriving DecidableEq

/-- One team member record.  Each field distinguishes an absent key
(`none`) from a key holding JSON `null` (`some none`) and from a string
value (`some (some s)`): the two `collect_all_authors` variants read these
fields with different `dict.get` idioms whose behavior differs exactly on
`null`.  `id` is the member's `id` key, which
`generate_all_author_feeds.py` reads as the identity ("ID = email"). -/
structure Member where
  name : Option (Option String)
  email : Option (Option String)
  id : Option (Option String)
deriving DecidableEq

/-- Python `member.get(key)`: absent key and JSON `null` both give `None`. -/
def pyGet (field : Option (Option String)) : Option String :=
  field.getD none

/-- Python `(member.get(key) or "")` on a string field: `None` and `""` both
fall back to `""`. -/
def pyGetOrEmpty (field : Option (Option String)) : String :=
  (pyGet field).getD ""

/-- Python `member.get(key, "").strip()` as used (unguarded) in
`generate_all_author_feeds.py`: an absent key gives the default `""`, but a
key holding JSON `null` makes the subsequent `.strip()` raise
`AttributeError` — modelled as `none`. -/
def pyGetDefaultEmpty (field : Option (Option String)) : Option String :=
  match field with
  | none => some ""
  | some none => none
  | some (some s) => some s

/-- Python `str.strip()`: drop leading and trailing whitespace.  (Defined
over the character list so that it evaluates by kernel reduction; Lean's
own `String.trim` is implemented with non-reducing position loops.) -/
def pyStrip (s : String) : String :=
  ⟨((s.data.dropWhile Char.isWhitespace).reverse.dropWhile
      Char.isWhitespace).reverse⟩

/-- One episode record as consumed by the feed builders and the author
aggregation.  `none` models an absent key; `team` entries can be `null`. -/
structure Episode where
  id : PyStr
  isFree : Option Bool
  publishedAt : Option PubVal
  team : Option (List (Option Member))
deriving DecidableEq

/-- The publish-date computation shared by both feed builders
(`generate_rss_feed.py` lines 243-249, `generate_author_feed_by_id.py` lines
476-482): `published_at = episode.get("publishedAt", 0)`; an integer value
is rendered as the instant it denotes (epoch milliseconds, via
`datetime.fromtimestamp(published_at / 1000)`); any non-integer value falls
back to `datetime.now()`, the current wall-clock instant `now`. -/
def pubDateOf (publishedAt : Option PubVal) (now : Int) : Int :=
  match publishedAt.getD (.int 0) with
  | .int n => n
  | .str _ => now

/-- The projection of one emitted `<item>` element that the claims speak
about: its guid, the episode id it was built from, and the rendered publish
instant. -/
structure FeedItem where
  guid : PyStr
  epId : PyStr
  pubDate : Int
deriving DecidableEq

/-- The item the loop body emits for a surviving episode: guid from the
(source-kind, owner, episode-id) triple and the rendered publish instant. -/
def mkFeedItem (kind : SourceKind) (owner : PyStr) (now : Int) (e : Episode) :
    FeedItem :=
  { guid := guidOf kind owner e.id, epId := e.id,
    pubDate := pubDateOf e.publishedAt now }

/-- The per-episode item loop shared by `generate_rss_feed`
(`generate_rss_feed.py` lines 218-291, `kind = .program`, `owner` the
program id) and `generate_author_rss_feed` (`generate_author_feed_by_id.py`
lines 428-553, `kind = .author`, `owner` the author id): an episode is
skipped when it is not free and `include_exclusive` is off, then skipped
when its audio URL does not resolve (`audio` is the resolver oracle for this
run), and otherwise emits one item. -/
def buildItems (kind : SourceKind) (owner : PyStr) (include_exclusive : Bool)
    (audio : PyStr → Option PyStr) (now : Int) : List Episode → List FeedItem
  | [] => []
  | e :: rest =>
    let is_free := e.isFree.getD true
    if !is_free && !include_exclusive then
      buildItems kind owner include_exclusive audio now rest
    else
      match audio e.id with
      | none => buildItems kind owner include_exclusive audio now rest
      | some _ =>
          mkFeedItem kind owner now e ::
            buildItems kind owner include_exclusive audio now rest

/-- The sort key of `author_episodes.sort(key=lambda x: x.get("publishedAt", 0),
reverse=True)` (`generate_author_feed_by_id.py` lines 288 and 358,
`generate_all_author_feeds.py` line 116).  The embedding covers records whose
`publishedAt` is an integer when present — with a non-integer value mixed in,
the Python comparison itself would raise `TypeError` — and an absent field
keys as 0 exactly as in the source. -/
def sortKey (e : Episode) : Int :=
  match e.publishedAt with
  | some (.int n) => n
  | _ => 0

/-- The stable descending sort the author collectors apply before
truncation. -/
def sortEpisodesDesc (es : List Episode) : List Episode :=
  es.mergeSort (fun a b => sortKey b ≤ sortKey a)

/-- A free episode carrying no `publishedAt` field at all, used as concrete
input. -/
def epNoDate : Episode :=
  { id := "e0".toList, isFree := some true, publishedAt := none, team := some [] }

/-- A free episode published at epoch-millis 2000, used as concrete input. -/
def epLate : Episode :=
  { id := "e1".toList, isFree := some true, publishedAt := some (.int 2000),
    team := some [] }

/-- An exclusive (non-free) episode, used as concrete input. -/
def epExclusive : Episode :=
  { id := "e2".toList, isFree := some false, publishedAt := some (.int 1000),
    team := some [] }

/-- An audio-resolver oracle that resolves every episode id. -/
def audioAll : PyStr → Option PyStr := fun _ => some "u".toList

/-! ### Author aggregation (claim C3)

There are two `collect_all_authors` implementations and they differ:

* `list_authors.py` lines 133-190 reads
  `author_email = (member.get("email") or "").strip()` and
  `author_name = (member.get("name") or "").strip()` — null-safe, keyed by
  the trimmed **email**;
* `generate_all_author_feeds.py` lines 21-76 reads
  `author_email = member.get("id", "").strip()` (its comment: "ID = email")
  and `author_name = member.get("name", "").strip()` — keyed by the trimmed
  **id** field, and `.strip()` raises `AttributeError` when the `name` or
  `id` key holds JSON `null`.

Both share the same dictionary algorithm, so the bucketing pipeline below is
parameterized by the key-field selector; the `list_authors.py` function is
its `Member.email` instance, and the `generate_all_author_feeds.py` function
is embedded separately as the fallible `collect_all_authors_by_id`, proved
equal to the `Member.id` instance on inputs where it does not raise.  The
already-fetched cache is the list of (program-name, episode-list) pairs in
scan order, and `authors_dict` is an insertion-ordered association list, as
a Python dict is. -/

/-- One accumulating `authors_dict` bucket. -/
structure AuthorData where
  name : String
  email : String
  episode_count : Nat
  programs : List String
deriving DecidableEq

/-- `authors_dict`, in insertion order. -/
abbrev AuthorsDict := List (String × AuthorData)

/-- `data['programs'].add(program_name)`: the Python set is modelled by the
list of its members in first-insertion order. -/
def addProgram (ps : List String) (p : String) : List String :=
  if p ∈ ps then ps else ps ++ [p]

/-- The dictionary update for one counted team membership: create the bucket
at first sight — recording the first-seen name — then increment its
`episode_count` and add the program name. -/
def addMention (email name program : String) : AuthorsDict → AuthorsDict
  | [] => [(email, ⟨name, email, 1, [program]⟩)]
  | (k, v) :: rest =>
    if k = email then
      (k, ⟨v.name, v.email, v.episode_count + 1, addProgram v.programs program⟩)
        :: rest
    else (k, v) :: addMention email name program rest

/-- One team-list entry, in the shared shape of the two loops: a null
member is skipped; otherwise the stripped name and the stripped key field
(`key` = `Member.email` for `list_authors.py`, `Member.id` for the pure
shadow of `generate_all_author_feeds.py`) are computed and only a pair of
non-empty strings is fed to the dictionary. -/
def processMember (key : Member → Option (Option String)) (program_name : String)
    (d : AuthorsDict) (m : Option Member) : AuthorsDict :=
  match m with
  | none => d
  | some mem =>
    let author_name := pyStrip (pyGetOrEmpty mem.name)
    let author_key := pyStrip (pyGetOrEmpty (key mem))
    if author_key ≠ "" ∧ author_name ≠ "" then
      addMention author_key author_name program_name d
    else d

/-- The inner loop over one episode's team list. -/
def processEpisode (key : Member → Option (Option String)) (program_name : String)
    (d : AuthorsDict) (e : Episode) : AuthorsDict :=
  (e.team.getD []).foldl (processMember key program_name) d

/-- The loop over one program's episodes. -/
def processProgram (key : Member → Option (Option String)) (d : AuthorsDict)
    (pr : String × List Episode) : AuthorsDict :=
  pr.2.foldl (processEpisode key pr.1) d

/-- The `authors_dict` built by scanning the whole cache. -/
def collectAuthorsDict (key : Member → Option (Option String))
    (cache : List (String × List Episode)) : AuthorsDict :=
  cache.foldl (processProgram key) []

/-- One element of `list_authors.py`'s final `authors_list`. -/
structure AuthorSummary where
  id : String
  name : String
  email : String
  episode_count : Nat
  programs : List String
deriving DecidableEq

/-- `collect_all_authors` of `list_authors.py`: aggregate keyed by the
member's trimmed `email`, convert the dictionary to a list (`id` = email,
programs sorted) and stable-sort by `episode_count` descending. -/
def collect_all_authors (cache : List (String × List Episode)) :
    List AuthorSummary :=
  ((collectAuthorsDict Member.email cache).map (fun kv =>
    { id := kv.1, name := kv.2.name, email := kv.2.email,
      episode_count := kv.2.episode_count,
      programs := kv.2.programs.mergeSort (fun a b => a ≤ b) })).mergeSort
    (fun a b => b.episode_count ≤ a.episode_count)

/-- One member step of `collect_all_authors` in
`generate_all_author_feeds.py` lines 43-61, translated directly: the
`.get("name", "")` / `.get("id", "")` reads raise on a JSON-null value
(`none` result), and the bucket key is the member's trimmed `id`. -/
def processMemberById (program_name : String) (d : AuthorsDict)
    (m : Option Member) : Option AuthorsDict :=
  match m with
  | none => some d
  | some mem =>
    match pyGetDefaultEmpty mem.name, pyGetDefaultEmpty mem.id with
    | some rawName, some rawId =>
      let author_name := pyStrip rawName
      let author_email := pyStrip rawId
      some (if author_email ≠ "" ∧ author_name ≠ "" then
        addMention author_email author_name program_name d
      else d)
    | _, _ => none

/-- The team loop of the by-id variant; a raise aborts the whole scan. -/
def processEpisodeById (program_name : String) (d : AuthorsDict) (e : Episode) :
    Option AuthorsDict :=
  (e.team.getD []).foldlM (processMemberById program_name) d

/-- The episode loop of the by-id variant. -/
def processProgramById (d : AuthorsDict) (pr : String × List Episode) :
    Option AuthorsDict :=
  pr.2.foldlM (processEpisodeById pr.1) d

/-- The `authors_dict` of the by-id variant. -/
def collectAuthorsDictById (cache : List (String × List Episode)) :
    Option AuthorsDict :=
  cache.foldlM processProgramById []

/-- One element of `generate_all_author_feeds.py`'s `authors_list`: it has
no `id` field — the identity sits in `email` — and `programs` keeps the raw
set-iteration order. -/
structure AuthorEntry where
  name : String
  email : String
  episode_count : Nat
  programs : List String
deriving DecidableEq

/-- `collect_all_authors` of `generate_all_author_feeds.py`: aggregate
keyed by the member's trimmed `id` field, then convert and sort by count
descending; `none` models the AttributeError a JSON-null `name`/`id` raises. -/
def collect_all_authors_by_id (cache : List (String × List Episode)) :
    Option (List AuthorEntry) :=
  (collectAuthorsDictById cache).map (fun d =>
    (d.map (fun kv =>
      (⟨kv.2.name, kv.2.email, kv.2.episode_count, kv.2.programs⟩ : AuthorEntry))).mergeSort
      (fun a b => b.episode_count ≤ a.episode_count))

/-- Whether the by-id member step can run without raising: its `name` and
`id` keys hold strings or are absent (not JSON null). -/
def memberSafe : Option Member → Bool
  | none => true
  | some mem =>
      (pyGetDefaultEmpty mem.name).isSome && (pyGetDefaultEmpty mem.id).isSome

/-- Whether the whole by-id scan runs without raising. -/
def cacheSafe (cache : List (String × List Episode)) : Bool :=
  cache.all (fun pr => pr.2.all (fun e => (e.team.getD []).all memberSafe))

/-- The fold step over one (program-name, team-entry) pair. -/
def mentionStep (key : Member → Option (Option String)) (d : AuthorsDict)
    (pm : String × Option Member) : AuthorsDict :=
  processMember key pm.1 d pm.2

/-- Every team-list entry of every cached episode, tagged with its program
name, in scan order. -/
def allTaggedMentions (cache : List (String × List Episode)) :
    List (String × Option Member) :=
  (cache.map (fun pr =>
    ((pr.2.map (fun e => e.team.getD [])).flatten).map (fun m => (pr.1, m)))).flatten

/-- Whether one team-list entry is a counted mention of `identity` under
the key field `key`: a non-null member whose stripped key field equals it
and is non-empty, with a non-empty stripped name. -/
def isCountedMention (key : Member → Option (Option String)) (identity : String) :
    Option Member → Bool
  | none => false
  | some mem =>
      (pyStrip (pyGetOrEmpty (key mem)) == identity)
      && !(pyStrip (pyGetOrEmpty (key mem)) == "")
      && !(pyStrip (pyGetOrEmpty mem.name) == "")

/-- The claim's reference count of team memberships carrying the non-empty
email `email` (with a non-empty name) across all cached episodes. -/
def countMentions (email : String) (cache : List (String × List Episode)) : Nat :=
  (allTaggedMentions cache).countP (fun pm => isCountedMention Member.email email pm.2)

/-- Team memberships carrying the non-empty `id` field value `memberId`:
what the by-id variant actually counts. -/
def countMentionsById (memberId : String)
    (cache : List (String × List Episode)) : Nat :=
  (allTaggedMentions cache).countP (fun pm => isCountedMention Member.id memberId pm.2)

/-- A member with a non-empty name and email but no `id` key. -/
def memberNoId : Member :=
  { name := some (some "Ala"), email := some (some "a@x.pl"), id := none }

/-- An episode whose team holds only `memberNoId`. -/
def epCx : Episode :=
  { id := "c1".toList, isFree := some true, publishedAt := none,
    team := some [some memberNoId] }

/-- The one-program counterexample cache for claim C3. -/
def cacheCx : List (String × List Episode) := [("P1", [epCx])]

/-- A member whose name, email and id keys all hold strings. -/
def memberW : Member :=
  { name := some (some "Bob"), email := some (some "b@x.pl"),
    id := some (some "b@x.pl") }

/-- An episode whose team holds only `memberW`. -/
def epW : Episode :=
  { id := "w1".toList, isFree := some true, publishedAt := none,
    team := some [some memberW] }

/-- The one-program witness cache for claim C3. -/
def cacheW : List (String × List Episode) := [("P1", [epW])]

/-- Association-list lookup mirroring the dictionary's key test. -/
def dictFind (email : String) : AuthorsDict → Option AuthorData
  | [] => none
  | (k, v) :: rest => if k = email then some v else dictFind email rest

/-- The `episode_count` held for `email`, 0 when the bucket is absent. -/
def dictCount (email : String) (d : AuthorsDict) : Nat :=
  match dictFind email d with
  | some v => v.episode_count
  | none => 0

/-! ### Authentication (claims C2, C7, C8)

The `Auth` class of `podcaster357.py` lines 38-134, duplicated in
`generate_rss_feed.py`, `generate_author_feed_by_id.py` and
`download_from_feed.py`.  The token file is modelled by the parsed pair it
holds (`none` = absent or unparseable), and each network call receives its
response as an argument: `none` models a transport or parse exception,
`some (status, body)` an HTTP response with its parsed JSON body. -/

/-- A parsed identity-endpoint JSON body (also the token-file contents):
the `accessToken` and `refreshToken` fields, each possibly absent/null. -/
structure TokenBody where
  accessToken : Option String
  refreshToken : Option String
deriving DecidableEq

/-- The `Auth` object state: the two in-memory tokens and the token file. -/
structure Auth where
  access_token : Option String
  refresh_token : Option String
  token_file : Option TokenBody
deriving DecidableEq

/-- Python truthiness of an optional string: `None` and `""` are falsy. -/
def pyTruthy : Option String → Bool
  | none => false
  | some s => !s.isEmpty

/-- `Auth.__init__` + `load_tokens`: read both fields from the token file
when it exists and parses; otherwise both tokens stay `None`. -/
def Auth.load (file : Option TokenBody) : Auth :=
  match file with
  | some body =>
      { access_token := body.accessToken, refresh_token := body.refreshToken,
        token_file := file }
  | none => { access_token := none, refresh_token := none, token_file := none }

/-- `save_tokens`: overwrite both in-memory tokens and rewrite the token
file with exactly this pair. -/
def Auth.save_tokens (_ : Auth) (ta tr : Option String) : Auth :=
  { access_token := ta, refresh_token := tr,
    token_file := some { accessToken := ta, refreshToken := tr } }

/-- `login`: POST the credentials; on HTTP 200 persist the body's token pair
and succeed; on any other status or exception fail without mutation. -/
def Auth.login (a : Auth) (resp : Option (Nat × TokenBody)) : Bool × Auth :=
  match resp with
  | some (status, body) =>
      if status = 200 then (true, a.save_tokens body.accessToken body.refreshToken)
      else (false, a)
  | none => (false, a)

/-- `refresh` (`podcaster357.py` lines 103-124): fail at once when no
(truthy) refresh token is held; otherwise POST it; on HTTP 200 persist the
new pair and succeed; on any other status or exception fail, leaving the
previous state untouched. -/
def Auth.refresh (a : Auth) (resp : Option (Nat × TokenBody)) : Bool × Auth :=
  if pyTruthy a.refresh_token = false then (false, a)
  else
    match resp with
    | some (status, body) =>
        if status = 200 then (true, a.save_tokens body.accessToken body.refreshToken)
        else (false, a)
    | none => (false, a)

/-- `get_headers`: a bearer header when a truthy access token is held. -/
def Auth.get_headers (a : Auth) : List (String × String) :=
  match a.access_token with
  | some t => if t.isEmpty then [] else [("Authorization", "Bearer " ++ t)]
  | none => []

/-- `is_authenticated`: `self.access_token is not None`. -/
def Auth.is_authenticated (a : Auth) : Bool :=
  a.access_token.isSome

/-- The credentials invariant of the spec data model: an access token is
never held without a refresh token. -/
def credInv (a : Auth) : Prop :=
  a.access_token.isSome → a.refresh_token.isSome

/-- The same invariant on a token-file content. -/
def fileInv : Option TokenBody → Prop
  | some body => body.accessToken.isSome → body.refreshToken.isSome
  | none => True

/-- Modelled from the spec, section 6 (Identity API): a `200` response body
of the login/refresh endpoints carries the token pair together, so a present
`accessToken` comes with a present `refreshToken`. -/
def respConformant (resp : Option (Nat × TokenBody)) : Prop :=
  ∀ status body, resp = some (status, body) → status = 200 →
    (body.accessToken.isSome → body.refreshToken.isSome)

/-- The three responses `get_audio_url` can consume in one call: the first
GET of the media-URL endpoint, the POST behind `auth.refresh()`, and the
retried GET.  A `none` entry is a raised transport/parse exception. -/
structure MediaWorld where
  firstResp : Option (Nat × Option String)
  refreshResp : Option (Nat × TokenBody)
  retryResp : Option (Nat × Option String)
deriving DecidableEq

/-- What one `get_audio_url` call returns and does: the `(url, needs_auth)`
pair of the source, the number of `auth.refresh()` invocations, and the
header map of every GET issued, in order. -/
structure GetAudioResult where
  url : Option String
  needs_auth : Bool
  refresh_calls : Nat
  gets : List (List (String × String))
deriving DecidableEq

/-- `get_audio_url` (`podcaster357.py` lines 180-206): GET with the current
headers; 200 returns the body's url; 401 with an authenticated session
refreshes once and, if the refresh succeeded, retries once with the fresh
headers (a non-200 retry yields `(None, True)`, a retry exception is caught
by the outer handler as `(None, False)`); a failed refresh yields
`(None, True)`; 403 yields `(None, True)`; anything else `(None, False)`. -/
def get_audio_url (auth : Option Auth) (w : MediaWorld) : GetAudioResult :=
  let headers := match auth with
    | some a => a.get_headers
    | none => []
  match w.firstResp with
  | none =>
      { url := none, needs_auth := false, refresh_calls := 0, gets := [headers] }
  | some (status, body) =>
    if status = 200 then
      { url := body, needs_auth := false, refresh_calls := 0, gets := [headers] }
    else
      match auth with
      | some a =>
        if status = 401 ∧ a.is_authenticated then
          match a.refresh w.refreshResp with
          | (true, a2) =>
            match w.retryResp with
            | some (status2, body2) =>
              if status2 = 200 then
                { url := body2, needs_auth := false, refresh_calls := 1,
                  gets := [headers, a2.get_headers] }
              else
                { url := none, needs_auth := true, refresh_calls := 1,
                  gets := [headers, a2.get_headers] }
            | none =>
                { url := none, needs_auth := false, refresh_calls := 1,
                  gets := [headers, a2.get_headers] }
          | (false, _) =>
              { url := none, needs_auth := true, refresh_calls := 1,
                gets := [headers] }
        else if status = 403 then
          { url := none, needs_auth := true, refresh_calls := 0, gets := [headers] }
        else
          { url := none, needs_auth := false, refresh_calls := 0, gets := [headers] }
      | none =>
        if status = 403 then
          { url := none, needs_auth := true, refresh_calls := 0, gets := [headers] }
        else
          { url := none, needs_auth := false, refresh_calls := 0, gets := [headers] }

/-- A concrete authenticated `Auth` state used as witness input. -/
def auth0 : Auth :=
  { access_token := some "A", refresh_token := some "R",
    token_file := some { accessToken := some "A", refreshToken := some "R" } }

/-- A concrete world: first GET 401, refresh succeeds, retry 200. -/
def world0 : MediaWorld :=
  { firstResp := some (401, none),
    refreshResp := some (200, { accessToken := some "A2", refreshToken := some "R2" }),
    retryResp := some (200, some "https.example/a.mp3") }

/-- A concrete world: first GET 401, refresh is rejected (status 403). -/
def world1 : MediaWorld :=
  { firstResp := some (401, none),
    refreshResp := some (403, { accessToken := none, refreshToken := none }),
    retryResp := none }

/-! ### Direct media download (claim C9)

`download_file` from `download_from_feed.py` lines 279-327; the direct
(non-`m3u8`) branch of `podcaster357.py` lines 216-247 is the same
algorithm.  The destination file is modelled by its optional content, the
transfer by the delivered chunk list plus the point of failure. -/

/-- The destination file content. -/
abbrev FileData := List Nat

/-- One download attempt as the local code observes it: the initial GET can
raise (`connectError`), `raise_for_status` can raise on an HTTP error
status, or the body streams some chunks and either completes or raises
midway (`midError`). -/
inductive DlWorld where
  | connectError
  | httpError (status : Nat)
  | stream (chunks : List FileData) (midError : Bool)
deriving DecidableEq

/-- The `except` handler of `download_file`: delete the destination if it
exists. -/
def cleanupDest : Option FileData → Option FileData
  | some _ => none
  | none => none

/-- `download_file(url, output_path)`: stream the body to the destination in
chunks; on success report `True` with the bytes on disk; on any raised
error, run the cleanup handler (the partially written or pre-existing
destination is unlinked) and report `False`. -/
def download_file (pre : Option FileData) (w : DlWorld) : Bool × Option FileData :=
  match w with
  | .connectError => (false, cleanupDest pre)
  | .httpError _ => (false, cleanupDest pre)
  | .stream chunks midError =>
      let written : FileData := chunks.flatten
      if midError then (false, cleanupDest (some written))
      else (true, some written)

set_option maxRecDepth 10000

/-! ### Helper lemmas on the string model -/

theorem splitOnChar_ne_nil (c : Char) (s : PyStr) : splitOnChar c s ≠ [] := by
  match s with
  | [] => simp [splitOnChar]
  | x :: xs =>
    simp only [splitOnChar]
    cases h : splitOnChar c xs with
    | nil => simp
    | cons h t =>
      by_cases hx : x = c <;> simp [hx]

theorem splitOnChar_cons (c x : Char) (xs : PyStr) :
    splitOnChar c (x :: xs) =
      if x = c then [] :: splitOnChar c xs
      else (x :: (splitOnChar c xs).headI) :: (splitOnChar c xs).tail := by
  simp only [splitOnChar]
  cases h : splitOnChar c xs with
  | nil => exact absurd h (splitOnChar_ne_nil c xs)
  | cons hd tl =>
    by_cases hx : x = c <;> simp [hx]

theorem two_le_length_splitOnChar_iff (c : Char) (s : PyStr) :
    2 ≤ (splitOnChar c s).length ↔ c ∈ s := by
  induction s with
  | nil => simp [splitOnChar]
  | cons x xs ih =>
    rcases h : splitOnChar c xs with _ | ⟨hd, tl⟩
    · exact absurd h (splitOnChar_ne_nil c xs)
    · rw [splitOnChar_cons, h]
      rw [h] at ih
      by_cases hx : x = c
      · subst hx
        rw [if_pos rfl]
        simp only [List.length_cons, List.mem_cons, true_or, iff_true]
        omega
      · simp only [if_neg hx, List.headI, List.tail, List.length_cons, List.mem_cons]
        simp only [List.length_cons] at ih
        constructor
        · intro hlen
          exact Or.inr (ih.mp (by omega))
        · intro hm
          rcases hm with hm | hm
          · exact absurd hm.symm hx
          · have := ih.mpr hm
            omega

theorem takeWhile_append_stops {α : Type _} (p : α → Bool) {l : List α} (m : List α)
    (h : ∃ x ∈ l, p x = false) :
    ((l ++ m).takeWhile p) = l.takeWhile p := by
  induction l with
  | nil => simp at h
  | cons y ys ih =>
    by_cases hy : p y
    · rcases h with ⟨x, hx, hpx⟩
      rcases List.mem_cons.mp hx with h' | h'
      · rw [h', hy] at hpx; simp at hpx
      · simp only [List.cons_append, List.takeWhile_cons, hy]
        rw [ih ⟨x, h', hpx⟩]
    · have hy' : p y = false := Bool.not_eq_true _ ▸ by simpa using hy
      simp [List.takeWhile_cons, hy']

theorem takeWhile_append_cons_stop {α : Type _} (p : α → Bool) {l : List α} {a : α}
    (m : List α) (h : ∀ x ∈ l, p x = true) (ha : p a = false) :
    ((l ++ a :: m).takeWhile p) = l := by
  induction l with
  | nil => simp [List.takeWhile_cons, ha]
  | cons y ys ih =>
    have hy : p y = true := h y (List.mem_cons_self y ys)
    simp only [List.cons_append, List.takeWhile_cons, hy, if_true]
    rw [ih (fun x hx => h x (List.mem_cons_of_mem y hx))]

theorem afterLastSep_of_not_mem {c : Char} {s : PyStr} (h : c ∉ s) :
    afterLastSep c s = s := by
  unfold afterLastSep
  have : s.reverse.takeWhile (fun x => x ≠ c) = s.reverse := by
    rw [List.takeWhile_eq_self_iff]
    intro x hx
    simp only [decide_eq_true_eq]
    intro hxc
    exact h (hxc ▸ List.mem_reverse.mp hx)
  rw [this, List.reverse_reverse]

theorem afterLastSep_cons_of_mem {c : Char} {xs : PyStr} (x : Char) (h : c ∈ xs) :
    afterLastSep c (x :: xs) = afterLastSep c xs := by
  unfold afterLastSep
  rw [List.reverse_cons,
    takeWhile_append_stops _ [x] ⟨c, List.mem_reverse.mpr h, by simp⟩]

theorem afterLastSep_cons_self (c : Char) (xs : PyStr) :
    afterLastSep c (c :: xs) = afterLastSep c xs := by
  by_cases h : c ∈ xs
  · exact afterLastSep_cons_of_mem c h
  · rw [afterLastSep_of_not_mem h]
    unfold afterLastSep
    rw [List.reverse_cons,
      takeWhile_append_cons_stop _ []
        (fun x hx => by
          simp only [decide_eq_true_eq]
          intro hxc
          exact h (hxc ▸ List.mem_reverse.mp hx))
        (by simp),
      List.reverse_reverse]

theorem getLastD_of_ne_nil {α : Type _} {l : List α} (a b : α) (h : l ≠ []) :
    l.getLastD a = l.getLastD b := by
  rw [List.getLastD_eq_getLast?, List.getLastD_eq_getLast?]
  cases hl : l.getLast? with
  | none => exact absurd (List.getLast?_eq_none_iff.mp hl) h
  | some x => simp

theorem getLastD_splitOnChar (c : Char) (s : PyStr) :
    (splitOnChar c s).getLastD [] = afterLastSep c s := by
  induction s with
  | nil => simp [splitOnChar, afterLastSep]
  | cons x xs ih =>
    rcases h : splitOnChar c xs with _ | ⟨hd, tl⟩
    · exact absurd h (splitOnChar_ne_nil c xs)
    · rw [splitOnChar_cons, h]
      rw [h] at ih
      by_cases hx : x = c
      · subst hx
        rw [if_pos rfl, List.getLastD_cons, afterLastSep_cons_self, ← ih]
      · rw [if_neg hx]
        rcases tl with _ | ⟨y, tl'⟩
        · -- a single field: `c` does not occur in `xs`
          have hnm : c ∉ xs := by
            intro hc
            have := (two_le_length_splitOnChar_iff c xs).mpr hc
            rw [h] at this
            simp at this
          simp only [List.headI, List.tail, List.getLastD_cons, List.getLastD_nil]
          simp only [List.getLastD_cons, List.getLastD_nil] at ih
          rw [afterLastSep_of_not_mem hnm] at ih
          subst ih
          exact (afterLastSep_of_not_mem (by
            intro hc
            rcases List.mem_cons.mp hc with h' | h'
            · exact hx h'.symm
            · exact hnm h')).symm
        · -- at least two fields: `c` occurs in `xs`
          have hm : c ∈ xs := by
            rw [← two_le_length_splitOnChar_iff c, h]
            simp only [List.length_cons]
            omega
          rw [afterLastSep_cons_of_mem x hm, ← ih]
          simp only [List.headI, List.tail, List.getLastD_cons]

theorem pyStartswith_iff (p g : PyStr) :
    pyStartswith p g = true ↔ ∃ t, g = p ++ t := by
  induction p generalizing g with
  | nil => simp [pyStartswith]
  | cons a p ih =>
    cases g with
    | nil =>
      simp only [pyStartswith, List.cons_append]
      constructor
      · intro h; cases h
      · rintro ⟨t, ht⟩; cases ht
    | cons b g =>
      simp only [pyStartswith, Bool.and_eq_true, decide_eq_true_eq, ih, List.cons_append]
      constructor
      · rintro ⟨rfl, t, rfl⟩
        exact ⟨t, rfl⟩
      · rintro ⟨t, ht⟩
        injection ht with h1 h2
        exact ⟨h1.symm, t, h2⟩

theorem guidOf_eq (k : SourceKind) (o e : PyStr) :
    guidOf k o e = guidPre k o ++ '-' :: e := by
  cases k <;> simp [guidOf, guidPre]

theorem not_mem_afterLastSep (c : Char) (s : PyStr) : c ∉ afterLastSep c s := by
  unfold afterLastSep
  intro h
  have h' := List.mem_reverse.mp h
  have := List.mem_takeWhile_imp h'
  simp at this

theorem afterLastSep_append_cons {c : Char} (l : PyStr) {e : PyStr} (h : c ∉ e) :
    afterLastSep c (l ++ c :: e) = e := by
  unfold afterLastSep
  have hrev : (l ++ c :: e).reverse = e.reverse ++ c :: l.reverse := by
    simp
  rw [hrev,
    takeWhile_append_cons_stop _ _
      (fun x hx => by
        simp only [decide_eq_true_eq]
        intro hxc
        exact h (hxc ▸ List.mem_reverse.mp hx))
      (by simp),
    List.reverse_reverse]

theorem guidOf_append_pre (k : SourceKind) (o e : PyStr) :
    ∃ t, guidOf k o e = "radio357-".toList ++ t := by
  cases k with
  | program => exact ⟨o ++ "-".toList ++ e, by simp [guidOf]⟩
  | author =>
    refine ⟨"author-".toList ++ (o ++ "-".toList ++ e), ?_⟩
    show "radio357-author-".toList ++ o ++ "-".toList ++ e = _
    have hsplit : "radio357-author-".toList =
        "radio357-".toList ++ "author-".toList := by decide
    rw [hsplit]
    simp [List.append_assoc]

theorem extract_guidOf (k : SourceKind) (o e : PyStr) :
    extract_podcast_id_from_guid (guidOf k o e) =
      some (afterLastSep '-' (guidOf k o e)) := by
  have hpre := guidOf_append_pre k o e
  have hmem : '-' ∈ guidOf k o e := by
    rcases hpre with ⟨t, ht⟩
    rw [ht]
    apply List.mem_append_left
    decide
  have hne : guidOf k o e ≠ [] := by
    intro h
    rw [h] at hmem
    cases hmem
  unfold extract_podcast_id_from_guid
  rw [if_neg hne, if_pos ((pyStartswith_iff _ _).mpr hpre),
    if_pos ((two_le_length_splitOnChar_iff _ _).mpr hmem), getLastD_splitOnChar]

theorem guidOf_inj (k : SourceKind) (o : PyStr) {e₁ e₂ : PyStr} :
    guidOf k o e₁ = guidOf k o e₂ ↔ e₁ = e₂ := by
  rw [guidOf_eq, guidOf_eq]
  constructor
  · intro h
    have h' := List.append_cancel_left h
    injection h'
  · rintro rfl
    rfl

theorem fetchEpisodesLoop_pre {α : Type _} (max : Nat)
    (pages : List (Option (List α))) :
    ∀ acc, ∃ l, fetchEpisodesLoop max acc pages = acc ++ l
      ∧ ∃ rest, l ++ rest = crawlPages pages := by
  induction pages with
  | nil => exact fun acc => ⟨[], by simp [fetchEpisodesLoop], [], rfl⟩
  | cons pg ps ih =>
    intro acc
    cases pg with
    | none => exact ⟨[], by simp [fetchEpisodesLoop], [], rfl⟩
    | some p =>
      by_cases hlen : acc.length < max
      · by_cases hp : p.isEmpty
        · have hpnil : p = [] := List.isEmpty_iff.mp hp
          refine ⟨[], ?_, [], ?_⟩
          · simp [fetchEpisodesLoop, hlen, hp]
          · subst hpnil
            simp [crawlPages]
        · by_cases hsmall : p.length < 250
          · refine ⟨p, ?_, [], ?_⟩
            · simp [fetchEpisodesLoop, hlen, hp, hsmall]
            · simp [crawlPages, hsmall]
          · obtain ⟨l, hl, rest, hrest⟩ := ih (acc ++ p)
            refine ⟨p ++ l, ?_, rest, ?_⟩
            · rw [show fetchEpisodesLoop max acc (some p :: ps) =
                  fetchEpisodesLoop max (acc ++ p) ps by
                  simp [fetchEpisodesLoop, hlen, hp, hsmall]]
              rw [hl, List.append_assoc]
            · rw [List.append_assoc, hrest]
              simp [crawlPages, hsmall]
      · refine ⟨[], ?_, crawlPages (some p :: ps), by simp⟩
        simp [fetchEpisodesLoop, hlen]

/-- C1: for every page sequence and every bound, the episode crawl returns at
most `max_episodes` records and a prefix of what unlimited pagination over
the same responses would produce; on pages of 250 then 10 episodes, a bound
of 1000 yields exactly the 260 episodes and a bound of 100 yields exactly
the first 100 encountered. -/
theorem claim_C1_pagination_bound :
    (∀ (α : Type) (pages : List (Option (List α))) (m : Nat),
        (fetch_all_episodes pages m).length ≤ m
        ∧ (∃ rest, fetch_all_episodes pages m ++ rest = crawlPages pages)
        ∧ (fetch_all_episodes_from_program pages m).length ≤ m
        ∧ (∃ rest, fetch_all_episodes_from_program pages m ++ rest = crawlPages pages))
    ∧ fetch_all_episodes scenarioPages 1000 = List.range 260
    ∧ (fetch_all_episodes scenarioPages 1000).length = 260
    ∧ fetch_all_episodes scenarioPages 100 = (crawlPages scenarioPages).take 100
    ∧ (fetch_all_episodes scenarioPages 100).length = 100 := by
  refine ⟨?_, by decide, by decide, by decide, by decide⟩
  intro α pages m
  obtain ⟨l, hl, rest, hrest⟩ := fetchEpisodesLoop_pre m pages []
  rw [List.nil_append] at hl
  have hbound : (fetch_all_episodes pages m).length ≤ m := by
    rw [fetch_all_episodes, List.length_take]
    exact min_le_left _ _
  have hpre : ∃ r, fetch_all_episodes pages m ++ r = crawlPages pages := by
    refine ⟨l.drop m ++ rest, ?_⟩
    rw [fetch_all_episodes, hl, ← List.append_assoc, List.take_append_drop, hrest]
  exact ⟨hbound, hpre, hbound, hpre⟩

/-- C10: for every guid the feed builders emit, `extract_podcast_id_from_guid`
returns the substring after the final hyphen, which is the original episode
id exactly when that id contains no hyphen; the empty guid and guids not
starting with `radio357-` give `None`. -/
theorem claim_C10_guid_extraction :
    (∀ (k : SourceKind) (o e : PyStr),
        extract_podcast_id_from_guid (guidOf k o e) =
          some (afterLastSep '-' (guidOf k o e))
        ∧ (extract_podcast_id_from_guid (guidOf k o e) = some e ↔ '-' ∉ e))
    ∧ extract_podcast_id_from_guid [] = none
    ∧ (∀ g : PyStr, pyStartswith "radio357-".toList g = false →
        extract_podcast_id_from_guid g = none) := by
  refine ⟨fun k o e => ⟨extract_guidOf k o e, ?_, ?_⟩, by decide, fun g hg => ?_⟩
  · intro h
    rw [extract_guidOf k o e] at h
    have he : afterLastSep '-' (guidOf k o e) = e := by
      injection h
    rw [← he]
    exact not_mem_afterLastSep '-' _
  · intro h
    rw [extract_guidOf k o e, guidOf_eq, afterLastSep_append_cons _ h]
  · unfold extract_podcast_id_from_guid
    by_cases hg0 : g = []
    · rw [if_pos hg0]
    · rw [if_neg hg0, hg]
      simp

/-- Witness for C10 at concrete inputs: the guid `radio357-12-34` round-trips
to episode id `34`, and a guid not starting with `radio357-` extracts to
nothing. -/
theorem claim_C10_guid_extraction_witness :
    extract_podcast_id_from_guid (guidOf .program "12".toList "34".toList) =
      some "34".toList
    ∧ extract_podcast_id_from_guid "foo-1".toList = none := by
  constructor
  · exact ((claim_C10_guid_extraction.1 .program "12".toList "34".toList).2).mpr
      (by decide)
  · exact claim_C10_guid_extraction.2.2 "foo-1".toList (by decide)

/-! ### Feed-builder theorems (claims C4, C5, C6) -/

/-- Membership in the items of a cons input unfolds to the three loop
cases. -/
theorem mem_buildItems_cons {kind : SourceKind} {owner : PyStr} {ie : Bool}
    {audio : PyStr → Option PyStr} {now : Int} {e : Episode}
    {rest : List Episode} {x : FeedItem} :
    x ∈ buildItems kind owner ie audio now (e :: rest) ↔
      ((!(e.isFree.getD true) && !ie) = false ∧ (audio e.id).isSome
        ∧ x = mkFeedItem kind owner now e)
      ∨ x ∈ buildItems kind owner ie audio now rest := by
  by_cases hc : (!(e.isFree.getD true) && !ie) = true
  · simp [buildItems, hc]
  · have hc' : (!(e.isFree.getD true) && !ie) = false := by
      simpa using hc
    cases ha : audio e.id with
    | none => simp [buildItems, hc', ha]
    | some u => simp [buildItems, hc', ha]

/-- C5: with `include_exclusive = false` the generated feed holds items for
exactly the free episodes whose audio URL resolves, in input order; turning
`include_exclusive` on over the same input yields an item list containing
every item of the restricted feed. -/
theorem claim_C5_exclusive_filter :
    ∀ (kind : SourceKind) (owner : PyStr) (audio : PyStr → Option PyStr)
      (now : Int) (es : List Episode),
      buildItems kind owner false audio now es =
        (es.filter (fun e => e.isFree.getD true && (audio e.id).isSome)).map
          (mkFeedItem kind owner now)
      ∧ ∀ x ∈ buildItems kind owner false audio now es,
          x ∈ buildItems kind owner true audio now es := by
  intro kind owner audio now es
  constructor
  · induction es with
    | nil => rfl
    | cons e rest ih =>
      by_cases hf : e.isFree.getD true
      · cases ha : audio e.id with
        | none => simp [buildItems, hf, ha, List.filter_cons, ih]
        | some u => simp [buildItems, hf, ha, List.filter_cons, ih]
      · have hf' : e.isFree.getD true = false := by
          simpa using hf
        simp [buildItems, hf', List.filter_cons, ih]
  · induction es with
    | nil => simp [buildItems]
    | cons e rest ih =>
      intro x hx
      rcases mem_buildItems_cons.mp hx with ⟨hc, ha, rfl⟩ | hmem
      · refine mem_buildItems_cons.mpr (Or.inl ⟨by simp, ha, rfl⟩)
      · exact mem_buildItems_cons.mpr (Or.inr (ih x hmem))

/-- The episode ids of the emitted items are a sublist of the input ids. -/
theorem buildItems_epId_sublist (kind : SourceKind) (owner : PyStr)
    (ie : Bool) (audio : PyStr → Option PyStr) (now : Int) :
    ∀ es : List Episode,
      ((buildItems kind owner ie audio now es).map FeedItem.epId).Sublist
        (es.map Episode.id) := by
  intro es
  induction es with
  | nil => simp [buildItems]
  | cons e rest ih =>
    by_cases hc : (!(e.isFree.getD true) && !ie) = true
    · simpa [buildItems, hc] using List.Sublist.cons e.id ih
    · have hc' : (!(e.isFree.getD true) && !ie) = false := by
        simpa using hc
      cases ha : audio e.id with
      | none => simpa [buildItems, hc', ha] using List.Sublist.cons e.id ih
      | some u =>
        simpa [buildItems, hc', ha, mkFeedItem] using List.Sublist.cons₂ e.id ih

/-- Every emitted item's guid is `guidOf` applied to its episode id. -/
theorem buildItems_guid_eq (kind : SourceKind) (owner : PyStr) (ie : Bool)
    (audio : PyStr → Option PyStr) (now : Int) :
    ∀ es : List Episode, ∀ it ∈ buildItems kind owner ie audio now es,
      it.guid = guidOf kind owner it.epId := by
  intro es
  induction es with
  | nil => simp [buildItems]
  | cons e rest ih =>
    intro it hit
    rcases mem_buildItems_cons.mp hit with ⟨hc, ha, rfl⟩ | hmem
    · rfl
    · exact ih it hmem

/-- C6: each emitted guid is the pure function `guidOf` of the
(source-kind, owner, episode-id) triple — hence identical across runs with
the same inputs — that function is injective in the episode id for a fixed
kind and owner, and when the crawled episode ids are distinct (the platform
guarantees globally unique identifiers) the guids of one generated feed are
pairwise distinct. -/
theorem claim_C6_guid_unique (kind : SourceKind) (owner : PyStr)
    (audio : PyStr → Option PyStr) (now : Int) (ie : Bool) (es : List Episode)
    (h : (es.map Episode.id).Nodup) :
    (∀ it ∈ buildItems kind owner ie audio now es,
        it.guid = guidOf kind owner it.epId)
    ∧ (∀ e₁ e₂ : PyStr, guidOf kind owner e₁ = guidOf kind owner e₂ ↔ e₁ = e₂)
    ∧ ((buildItems kind owner ie audio now es).map FeedItem.guid).Nodup := by
  have hform := buildItems_guid_eq kind owner ie audio now es
  refine ⟨hform, fun e₁ e₂ => guidOf_inj kind owner, ?_⟩
  have hmap : (buildItems kind owner ie audio now es).map FeedItem.guid =
      ((buildItems kind owner ie audio now es).map FeedItem.epId).map
        (guidOf kind owner) := by
    rw [List.map_map]
    exact List.map_congr_left hform
  rw [hmap]
  have hids : ((buildItems kind owner ie audio now es).map FeedItem.epId).Nodup :=
    List.Nodup.sublist (buildItems_epId_sublist kind owner ie audio now es) h
  exact hids.map (fun a b hab => (guidOf_inj kind owner).mp hab)

/-- Witness for C6 at a concrete input: a two-episode feed with distinct
episode ids has pairwise distinct guids. -/
theorem claim_C6_guid_unique_witness :
    ((buildItems .program "7".toList true audioAll 0 [epNoDate, epLate]).map
      FeedItem.guid).Nodup :=
  (claim_C6_guid_unique .program "7".toList audioAll 0 true [epNoDate, epLate]
    (by decide)).2.2

/-- C4 counterexample: on an episode whose `publishedAt` field is absent,
the feed builder renders the epoch instant 0 — `episode.get("publishedAt", 0)`
is the integer 0, which takes the `fromtimestamp` branch — and not the
current wall-clock time (here 5), so the claim's "renders using the current
time" is false on the code. -/
theorem claim_C4_counterexample :
    (buildItems .program "7".toList true audioAll 5 [epNoDate]).map
        FeedItem.pubDate = [0]
    ∧ (buildItems .program "7".toList true audioAll 5 [epNoDate]).map
        FeedItem.pubDate ≠ [5] := by
  decide

/-- C4 (amended): under descending-date sort an episode with `publishedAt`
absent or zero is placed after every episode with a positive timestamp (its
key is 0, the minimum among non-negative epoch keys), and the feed builder
renders its publish date as the Unix epoch instant 0 — the current time is
used only when the stored value is not an integer; both steps are total
functions, so neither raises. -/
theorem claim_C4_zero_timestamp_last (es : List Episode) (now : Int)
    (hnn : ∀ e ∈ es, 0 ≤ sortKey e) :
    (sortEpisodesDesc es).Pairwise (fun a b => sortKey b ≤ sortKey a)
    ∧ (∀ l₁ e l₂, sortEpisodesDesc es = l₁ ++ e :: l₂ → sortKey e = 0 →
        ∀ f ∈ l₂, sortKey f = 0)
    ∧ pubDateOf none now = 0
    ∧ pubDateOf (some (.int 0)) now = 0
    ∧ (∀ s, pubDateOf (some (.str s)) now = now) := by
  have hpw : (sortEpisodesDesc es).Pairwise (fun a b => sortKey b ≤ sortKey a) := by
    have := @List.sorted_mergeSort Episode
      (fun a b : Episode => decide (sortKey b ≤ sortKey a))
      (fun a b c hab hbc => by
        simp only [decide_eq_true_eq] at hab hbc ⊢
        omega)
      (fun a b => by
        simp only [Bool.or_eq_true, decide_eq_true_eq]
        omega)
      es
    exact this.imp (fun hab => of_decide_eq_true hab)
  refine ⟨hpw, ?_, rfl, rfl, fun s => rfl⟩
  intro l₁ e l₂ heq he0 f hf
  have hrel : sortKey f ≤ sortKey e := by
    have hsub : (e :: l₂).Sublist (l₁ ++ e :: l₂) :=
      List.sublist_append_right l₁ (e :: l₂)
    have hpw' := List.Pairwise.sublist hsub (heq ▸ hpw)
    exact (List.pairwise_cons.mp hpw').1 f hf
  have hmemf : f ∈ es := by
    have h1 : f ∈ sortEpisodesDesc es := by
      rw [heq]
      exact List.mem_append_right l₁ (List.mem_cons_of_mem e hf)
    exact (List.mergeSort_perm es _).mem_iff.mp h1
  have := hnn f hmemf
  omega

/-- Witness for C4 (amended) at a concrete input: sorting a dated and an
undated episode, and rendering an absent timestamp at wall-clock 7. -/
theorem claim_C4_zero_timestamp_last_witness :
    ((sortEpisodesDesc [epNoDate, epLate]).Pairwise
      fun a b => sortKey b ≤ sortKey a)
    ∧ pubDateOf none 7 = 0 :=
  ⟨(claim_C4_zero_timestamp_last [epNoDate, epLate] 7 (by decide)).1,
    (claim_C4_zero_timestamp_last [epNoDate, epLate] 7 (by decide)).2.2.1⟩

/-! ### Authentication theorems (claims C2, C7, C8) -/

/-- C2: on a 401 from the media-URL endpoint with an authenticated session
holding a refresh token, `get_audio_url` invokes `refresh()` exactly once;
when the refresh succeeds the GET is retried exactly once, with the
refreshed session's headers; when the refresh fails the call returns
`url = None` and `needs_auth = True` without any retry. -/
theorem claim_C2_retry_once (a : Auth) (w : MediaWorld) (t : String)
    (b : Option String)
    (hacc : a.access_token = some t)
    (_href : pyTruthy a.refresh_token = true)
    (hfirst : w.firstResp = some (401, b)) :
    (get_audio_url (some a) w).refresh_calls = 1
    ∧ ((a.refresh w.refreshResp).1 = true →
        (get_audio_url (some a) w).gets =
          [a.get_headers, (a.refresh w.refreshResp).2.get_headers])
    ∧ ((a.refresh w.refreshResp).1 = false →
        (get_audio_url (some a) w).url = none
        ∧ (get_audio_url (some a) w).needs_auth = true
        ∧ (get_audio_url (some a) w).gets = [a.get_headers]) := by
  have hauth : a.is_authenticated = true := by
    simp [Auth.is_authenticated, hacc]
  rcases hr : a.refresh w.refreshResp with ⟨ok, a2⟩
  cases ok with
  | false =>
    refine ⟨?_, ?_, ?_⟩
    · simp [get_audio_url, hfirst, hauth, hr]
    · intro hok
      simp at hok
    · intro _
      refine ⟨?_, ?_, ?_⟩ <;> simp [get_audio_url, hfirst, hauth, hr]
  | true =>
    have hgets : (get_audio_url (some a) w).refresh_calls = 1
        ∧ (get_audio_url (some a) w).gets = [a.get_headers, a2.get_headers] := by
      rcases hretry : w.retryResp with _ | ⟨status2, b2⟩
      · constructor <;> simp [get_audio_url, hfirst, hauth, hr, hretry]
      · by_cases h2 : status2 = 200 <;>
          constructor <;> simp [get_audio_url, hfirst, hauth, hr, hretry, h2]
    refine ⟨hgets.1, ?_, ?_⟩
    · intro _
      rw [hgets.2]
    · intro hok
      simp at hok

/-- Witness for C2 at concrete inputs: with session `auth0`, a 401 followed
by a successful refresh and a 200 retry performs one refresh and two GETs
(the second with the refreshed headers); with a rejected refresh (`world1`)
the result is no url, auth required, after a single GET. -/
theorem claim_C2_retry_once_witness :
    (get_audio_url (some auth0) world0).refresh_calls = 1
    ∧ (get_audio_url (some auth0) world0).gets =
        [auth0.get_headers, (auth0.refresh world0.refreshResp).2.get_headers]
    ∧ (get_audio_url (some auth0) world1).url = none
    ∧ (get_audio_url (some auth0) world1).needs_auth = true := by
  have h0 := claim_C2_retry_once auth0 world0 "A" none (by rfl)
    (by decide) (by rfl)
  have h1 := claim_C2_retry_once auth0 world1 "A" none (by rfl)
    (by decide) (by rfl)
  have hfail : (auth0.refresh world1.refreshResp).1 = false := by decide
  exact ⟨h0.1, h0.2.1 (by decide), (h1.2.2 hfail).1, (h1.2.2 hfail).2.1⟩

/-- C7: `refresh()` fails immediately when no refresh token is held; on an
HTTP 200 response it persists the response's token pair — in memory and in
the token file — and returns `True`; on any other status, or on a raised
network/parse exception, it returns `False` and leaves the held tokens and
the token file unchanged. -/
theorem claim_C7_refresh_contract (a : Auth) (resp : Option (Nat × TokenBody)) :
    (pyTruthy a.refresh_token = false → a.refresh resp = (false, a))
    ∧ (∀ body, pyTruthy a.refresh_token = true → resp = some (200, body) →
        (a.refresh resp).1 = true
        ∧ (a.refresh resp).2.access_token = body.accessToken
        ∧ (a.refresh resp).2.refresh_token = body.refreshToken
        ∧ (a.refresh resp).2.token_file = some body)
    ∧ (∀ status body, pyTruthy a.refresh_token = true →
        resp = some (status, body) → status ≠ 200 → a.refresh resp = (false, a))
    ∧ (pyTruthy a.refresh_token = true → resp = none →
        a.refresh resp = (false, a)) := by
  refine ⟨?_, ?_, ?_, ?_⟩
  · intro h
    simp [Auth.refresh, h]
  · intro body h hresp
    subst hresp
    simp [Auth.refresh, h, Auth.save_tokens]
  · intro status body h hresp hst
    subst hresp
    simp [Auth.refresh, h, hst]
  · intro h hresp
    subst hresp
    simp [Auth.refresh, h]

/-- A session holding no refresh token, used as witness input. -/
def authNoRefresh : Auth :=
  { access_token := some "A", refresh_token := none, token_file := none }

/-- A conformant 200 token body, used as witness input. -/
def body0 : TokenBody :=
  { accessToken := some "A2", refreshToken := some "R2" }

/-- Witness for C7 at concrete inputs: the four branches of the refresh
contract at explicit states and responses. -/
theorem claim_C7_refresh_contract_witness :
    Auth.refresh authNoRefresh (some (200, body0)) = (false, authNoRefresh)
    ∧ (Auth.refresh auth0 (some (200, body0))).1 = true
    ∧ (Auth.refresh auth0 (some (200, body0))).2.token_file = some body0
    ∧ Auth.refresh auth0 (some (500, body0)) = (false, auth0)
    ∧ Auth.refresh auth0 none = (false, auth0) := by
  have h1 := claim_C7_refresh_contract authNoRefresh (some (200, body0))
  have h2 := claim_C7_refresh_contract auth0 (some (200, body0))
  have h3 := claim_C7_refresh_contract auth0 (some (500, body0))
  have h4 := claim_C7_refresh_contract auth0 none
  have htr : pyTruthy auth0.refresh_token = true := by decide
  refine ⟨h1.1 (by decide), ?_, ?_, ?_, ?_⟩
  · exact (h2.2.1 body0 htr rfl).1
  · exact (h2.2.1 body0 htr rfl).2.2.2
  · exact h3.2.2.1 500 body0 htr rfl (by decide)
  · exact h4.2.2.2 htr rfl

/-- C8: every Auth operation preserves the credentials invariant — whenever
an access token is held, a refresh token is held too — given the section-6
interface guarantee that 200 identity responses carry the pair together:
loading from a file whose stored pair satisfies the invariant, saving a
conforming pair, login, and refresh all leave the in-memory state and the
token file satisfying it. -/
theorem claim_C8_pair_invariant :
    (∀ file, fileInv file → credInv (Auth.load file))
    ∧ (∀ (a : Auth) ta tr, (ta.isSome → tr.isSome) →
        credInv (a.save_tokens ta tr)
        ∧ fileInv (a.save_tokens ta tr).token_file)
    ∧ (∀ (a : Auth) resp, credInv a → fileInv a.token_file →
        respConformant resp →
        credInv (a.login resp).2 ∧ fileInv (a.login resp).2.token_file)
    ∧ (∀ (a : Auth) resp, credInv a → fileInv a.token_file →
        respConformant resp →
        credInv (a.refresh resp).2 ∧ fileInv (a.refresh resp).2.token_file) := by
  refine ⟨?_, ?_, ?_, ?_⟩
  · intro file hf
    cases file with
    | none => intro h; simp [Auth.load] at h
    | some body => exact fun h => hf (by simpa [Auth.load] using h)
  · intro a ta tr hpair
    exact ⟨hpair, hpair⟩
  · intro a resp hc hf hconf
    cases resp with
    | none => exact ⟨hc, hf⟩
    | some sb =>
      rcases sb with ⟨status, body⟩
      by_cases hst : status = 200
      · subst hst
        have hbody := hconf 200 body rfl rfl
        constructor
        · simpa [Auth.login, Auth.save_tokens, credInv] using hbody
        · simpa [Auth.login, Auth.save_tokens, fileInv] using hbody
      · constructor
        · simpa [Auth.login, hst] using hc
        · simpa [Auth.login, hst] using hf
  · intro a resp hc hf hconf
    by_cases htr : pyTruthy a.refresh_token = false
    · simpa [Auth.refresh, htr] using ⟨hc, hf⟩
    · have htr' : pyTruthy a.refresh_token = true := by
        simpa using htr
      cases resp with
      | none => simpa [Auth.refresh, htr'] using ⟨hc, hf⟩
      | some sb =>
        rcases sb with ⟨status, body⟩
        by_cases hst : status = 200
        · subst hst
          have hbody := hconf 200 body rfl rfl
          constructor
          · simpa [Auth.refresh, htr', Auth.save_tokens, credInv] using hbody
          · simpa [Auth.refresh, htr', Auth.save_tokens, fileInv] using hbody
        · simpa [Auth.refresh, htr', hst] using ⟨hc, hf⟩

/-- Witness for C8 at concrete inputs: loading a conforming file and saving
a full pair keep the invariant. -/
theorem claim_C8_pair_invariant_witness :
    credInv (Auth.load (some body0))
    ∧ credInv (Auth.save_tokens auth0 (some "x") (some "y")) :=
  ⟨claim_C8_pair_invariant.1 (some body0) (by simp [fileInv, body0]),
    (claim_C8_pair_invariant.2.1 auth0 (some "x") (some "y") (by simp)).1⟩

/-! ### Author-aggregation theorems (claim C3) -/

theorem dictCount_cons (email k : String) (v : AuthorData) (rest : AuthorsDict) :
    dictCount email ((k, v) :: rest) =
      if k = email then v.episode_count else dictCount email rest := by
  by_cases hk : k = email
  · simp [dictCount, dictFind, hk]
  · simp [dictCount, dictFind, hk]

theorem addMention_dictCount_self (email name prog : String) :
    ∀ d, dictCount email (addMention email name prog d) = dictCount email d + 1 := by
  intro d
  induction d with
  | nil => simp [addMention, dictCount, dictFind]
  | cons kv rest ih =>
    rcases kv with ⟨k, v⟩
    by_cases hk : k = email
    · subst hk
      simp [addMention, dictCount_cons]
    · simp [addMention, hk, dictCount_cons, ih]

theorem addMention_dictCount_other {email' email : String} (name prog : String)
    (h : email' ≠ email) :
    ∀ d, dictCount email (addMention email' name prog d) = dictCount email d := by
  intro d
  induction d with
  | nil => simp [addMention, dictCount, dictFind, h]
  | cons kv rest ih =>
    rcases kv with ⟨k, v⟩
    by_cases hk : k = email'
    · subst hk
      simp [addMention, dictCount_cons, h]
    · have h' : ¬email = email' := fun he => h he.symm
      by_cases hke : k = email <;>
        simp [addMention, hk, hke, dictCount_cons, ih, h']

theorem addMention_keys (email name prog : String) :
    ∀ d : AuthorsDict, (addMention email name prog d).map Prod.fst =
      if email ∈ d.map Prod.fst then d.map Prod.fst
      else d.map Prod.fst ++ [email] := by
  intro d
  induction d with
  | nil => simp [addMention]
  | cons kv rest ih =>
    rcases kv with ⟨k, v⟩
    by_cases hk : k = email
    · subst hk
      simp [addMention]
    · have hne : ¬email = k := fun h => hk h.symm
      by_cases hm : email ∈ rest.map Prod.fst
      · simp [addMention, hk, hm, hne, ih]
      · simp [addMention, hk, hm, hne, ih]

theorem addMention_keys_mem (email name prog email' : String) (d : AuthorsDict) :
    email' ∈ (addMention email name prog d).map Prod.fst ↔
      email' ∈ d.map Prod.fst ∨ email' = email := by
  rw [addMention_keys]
  by_cases hm : email ∈ d.map Prod.fst
  · rw [if_pos hm]
    constructor
    · exact Or.inl
    · rintro (h | rfl)
      · exact h
      · exact hm
  · rw [if_neg hm]
    simp

theorem addMention_keys_nodup (email name prog : String) (d : AuthorsDict)
    (h : (d.map Prod.fst).Nodup) :
    ((addMention email name prog d).map Prod.fst).Nodup := by
  rw [addMention_keys]
  by_cases hm : email ∈ d.map Prod.fst
  · rwa [if_pos hm]
  · rw [if_neg hm, List.nodup_append]
    exact ⟨h, List.nodup_singleton email, by
      intro a ha hmem
      rw [List.mem_singleton.mp hmem] at ha
      exact hm ha⟩

theorem dictFind_of_mem :
    ∀ {d : AuthorsDict} {k : String} {v : AuthorData},
      (d.map Prod.fst).Nodup → (k, v) ∈ d → dictFind k d = some v := by
  intro d
  induction d with
  | nil => intro k v _ hm; cases hm
  | cons kv rest ih =>
    intro k v hnd hm
    rcases kv with ⟨k', v'⟩
    rw [List.map_cons] at hnd
    have hnd' := List.nodup_cons.mp hnd
    rcases List.mem_cons.mp hm with heq | hmem
    · have hk : k' = k := congrArg Prod.fst heq.symm
      have hv : v' = v := congrArg Prod.snd heq.symm
      subst hk
      subst hv
      simp [dictFind]
    · have hk' : k' ≠ k := by
        intro hkk
        subst hkk
        exact hnd'.1 (List.mem_map.mpr ⟨(k', v), hmem, rfl⟩)
      rw [dictFind, if_neg hk']
      exact ih hnd'.2 hmem

theorem mentionStep_dictCount (key : Member → Option (Option String))
    (d : AuthorsDict) (pm : String × Option Member) (email : String) :
    dictCount email (mentionStep key d pm) =
      dictCount email d + (if isCountedMention key email pm.2 then 1 else 0) := by
  rcases pm with ⟨pn, m⟩
  cases m with
  | none => simp [mentionStep, processMember, isCountedMention]
  | some mem =>
    have hstep : (pyStrip (pyGetOrEmpty (key mem)) ≠ "" ∧ pyStrip (pyGetOrEmpty mem.name) ≠ "") →
        mentionStep key d (pn, some mem) =
          addMention (pyStrip (pyGetOrEmpty (key mem))) (pyStrip (pyGetOrEmpty mem.name)) pn d := by
      intro h
      simp [mentionStep, processMember, h]
    by_cases hcond : (pyStrip (pyGetOrEmpty (key mem)) ≠ "" ∧ pyStrip (pyGetOrEmpty mem.name) ≠ "")
    · by_cases he : pyStrip (pyGetOrEmpty (key mem)) = email
      · have hne : email ≠ "" := he ▸ hcond.1
        have hc : isCountedMention key email (some mem) = true := by
          simp only [isCountedMention, he]
          simp [hne, hcond.2]
        rw [hstep hcond, he, addMention_dictCount_self, hc, if_pos rfl]
      · have hc : isCountedMention key email (some mem) = false := by
          simp only [isCountedMention]
          simp [he]
        rw [hstep hcond, addMention_dictCount_other _ _ he, hc]
        simp
    · have hc : isCountedMention key email (some mem) = false := by
        rcases not_and_or.mp hcond with h | h
        · have h' : pyStrip (pyGetOrEmpty (key mem)) = "" := not_not.mp h
          simp [isCountedMention, h']
        · have h' : pyStrip (pyGetOrEmpty mem.name) = "" := not_not.mp h
          simp [isCountedMention, h']
      simp [mentionStep, processMember, if_neg hcond, hc]

theorem mentionStep_keys_mem (key : Member → Option (Option String))
    (d : AuthorsDict) (pm : String × Option Member) (email : String) :
    email ∈ (mentionStep key d pm).map Prod.fst ↔
      email ∈ d.map Prod.fst ∨ isCountedMention key email pm.2 = true := by
  rcases pm with ⟨pn, m⟩
  cases m with
  | none => simp [mentionStep, processMember, isCountedMention]
  | some mem =>
    by_cases hcond : (pyStrip (pyGetOrEmpty (key mem)) ≠ "" ∧ pyStrip (pyGetOrEmpty mem.name) ≠ "")
    · have hstep : mentionStep key d (pn, some mem) =
          addMention (pyStrip (pyGetOrEmpty (key mem))) (pyStrip (pyGetOrEmpty mem.name)) pn d := by
        simp [mentionStep, processMember, hcond]
      rw [hstep, addMention_keys_mem]
      constructor
      · rintro (h | rfl)
        · exact Or.inl h
        · refine Or.inr ?_
          simp only [isCountedMention]
          simp [hcond.1, hcond.2]
      · rintro (h | hc)
        · exact Or.inl h
        · refine Or.inr ?_
          simp only [isCountedMention, Bool.and_eq_true, beq_iff_eq] at hc
          exact hc.1.1.symm
    · have hc : isCountedMention key email (some mem) = false := by
        rcases not_and_or.mp hcond with h | h
        · have h' : pyStrip (pyGetOrEmpty (key mem)) = "" := not_not.mp h
          simp [isCountedMention, h']
        · have h' : pyStrip (pyGetOrEmpty mem.name) = "" := not_not.mp h
          simp [isCountedMention, h']
      simp [mentionStep, processMember, if_neg hcond, hc]

theorem mentionStep_keys_nodup (key : Member → Option (Option String))
    (d : AuthorsDict) (pm : String × Option Member)
    (h : (d.map Prod.fst).Nodup) :
    ((mentionStep key d pm).map Prod.fst).Nodup := by
  rcases pm with ⟨pn, m⟩
  cases m with
  | none => exact h
  | some mem =>
    by_cases hcond : (pyStrip (pyGetOrEmpty (key mem)) ≠ "" ∧ pyStrip (pyGetOrEmpty mem.name) ≠ "")
    · simp only [mentionStep, processMember, if_pos hcond]
      exact addMention_keys_nodup _ _ _ d h
    · simpa [mentionStep, processMember, if_neg hcond] using h

theorem mentionStep_foldl_spec (key : Member → Option (Option String)) :
    ∀ (l : List (String × Option Member)) (d : AuthorsDict),
      (∀ email, dictCount email (l.foldl (mentionStep key) d) =
          dictCount email d + l.countP (fun pm => isCountedMention key email pm.2))
      ∧ ((d.map Prod.fst).Nodup → ((l.foldl (mentionStep key) d).map Prod.fst).Nodup)
      ∧ (∀ email, email ∈ (l.foldl (mentionStep key) d).map Prod.fst ↔
          email ∈ d.map Prod.fst
          ∨ 0 < l.countP (fun pm => isCountedMention key email pm.2)) := by
  intro l
  induction l with
  | nil =>
    intro d
    exact ⟨fun email => by simp, fun h => h, fun email => by simp⟩
  | cons pm rest ih =>
    intro d
    refine ⟨?_, ?_, ?_⟩
    · intro email
      rw [List.foldl_cons, (ih (mentionStep key d pm)).1 email,
        mentionStep_dictCount, List.countP_cons]
      by_cases hc : isCountedMention key email pm.2 <;> simp [hc] <;> omega
    · intro hd
      rw [List.foldl_cons]
      exact (ih (mentionStep key d pm)).2.1 (mentionStep_keys_nodup key d pm hd)
    · intro email
      rw [List.foldl_cons, (ih (mentionStep key d pm)).2.2 email,
        mentionStep_keys_mem, List.countP_cons]
      by_cases hc : isCountedMention key email pm.2
      · simp [hc]
      · have hc' : isCountedMention key email pm.2 = false := by simpa using hc
        simp [hc', or_assoc]

theorem foldl_mentionStep_block (key : Member → Option (Option String))
    (pn : String) (eps : List Episode) (d : AuthorsDict) :
    ((((eps.map (fun e => e.team.getD [])).flatten).map
      (fun m => (pn, m))).foldl (mentionStep key) d) =
      processProgram key d (pn, eps) := by
  rw [List.foldl_map]
  show ((eps.map (fun e => e.team.getD [])).flatten).foldl (processMember key pn) d = _
  rw [List.foldl_flatten, List.foldl_map]
  rfl

theorem collectAuthorsDict_eq_flat (key : Member → Option (Option String)) :
    ∀ (cache : List (String × List Episode)) (d : AuthorsDict),
      cache.foldl (processProgram key) d =
        (allTaggedMentions cache).foldl (mentionStep key) d := by
  intro cache
  induction cache with
  | nil => intro d; rfl
  | cons pr ps ih =>
    intro d
    rcases pr with ⟨pn, eps⟩
    have hsplit : allTaggedMentions ((pn, eps) :: ps) =
        (((eps.map (fun e => e.team.getD [])).flatten).map (fun m => (pn, m)))
          ++ allTaggedMentions ps := by
      simp [allTaggedMentions]
    rw [List.foldl_cons, hsplit, List.foldl_append, foldl_mentionStep_block]
    exact ih _

theorem addMention_email_inv (email name prog : String) :
    ∀ d : AuthorsDict, (∀ kv ∈ d, (kv.2).email = kv.1) →
      ∀ kv ∈ addMention email name prog d, (kv.2).email = kv.1 := by
  intro d
  induction d with
  | nil =>
    intro _ kv hkv
    rcases List.mem_singleton.mp hkv with rfl
    rfl
  | cons hd rest ih =>
    rcases hd with ⟨k, v⟩
    intro hinv kv hkv
    by_cases hk : k = email
    · rw [addMention, if_pos hk] at hkv
      rcases List.mem_cons.mp hkv with rfl | hmem
      · exact hinv (k, v) (List.mem_cons_self _ _)
      · exact hinv kv (List.mem_cons_of_mem _ hmem)
    · rw [addMention, if_neg hk] at hkv
      rcases List.mem_cons.mp hkv with rfl | hmem
      · exact hinv (k, v) (List.mem_cons_self _ _)
      · exact ih (fun kv h => hinv kv (List.mem_cons_of_mem _ h)) kv hmem

theorem mentionStep_email_inv (key : Member → Option (Option String))
    (d : AuthorsDict) (pm : String × Option Member)
    (h : ∀ kv ∈ d, (kv.2).email = kv.1) :
    ∀ kv ∈ mentionStep key d pm, (kv.2).email = kv.1 := by
  rcases pm with ⟨pn, m⟩
  cases m with
  | none => exact h
  | some mem =>
    by_cases hcond : (pyStrip (pyGetOrEmpty (key mem)) ≠ "" ∧ pyStrip (pyGetOrEmpty mem.name) ≠ "")
    · intro kv hkv
      refine addMention_email_inv (pyStrip (pyGetOrEmpty (key mem)))
        (pyStrip (pyGetOrEmpty mem.name)) pn d h kv ?_
      simpa [mentionStep, processMember, hcond] using hkv
    · intro kv hkv
      refine h kv ?_
      simpa [mentionStep, processMember, if_neg hcond] using hkv

theorem foldl_mentionStep_email_inv (key : Member → Option (Option String)) :
    ∀ (l : List (String × Option Member)) (d : AuthorsDict),
      (∀ kv ∈ d, (kv.2).email = kv.1) →
      ∀ kv ∈ l.foldl (mentionStep key) d, (kv.2).email = kv.1 := by
  intro l
  induction l with
  | nil => exact fun d h => h
  | cons pm rest ih =>
    intro d h
    rw [List.foldl_cons]
    exact ih (mentionStep key d pm) (mentionStep_email_inv key d pm h)

/-- The dictionary-level specification of the keyed aggregation: entry
counts equal the counted mentions of the entry's key, the stored `email`
field is the key, a key is present iff some counted mention exists, and
keys are pairwise distinct. -/
theorem collectAuthorsDict_spec (key : Member → Option (Option String))
    (cache : List (String × List Episode)) :
    (∀ kv ∈ collectAuthorsDict key cache,
        (kv.2).episode_count =
          (allTaggedMentions cache).countP (fun pm => isCountedMention key kv.1 pm.2)
        ∧ (kv.2).email = kv.1)
    ∧ (∀ identity, identity ∈ (collectAuthorsDict key cache).map Prod.fst ↔
        0 < (allTaggedMentions cache).countP
          (fun pm => isCountedMention key identity pm.2))
    ∧ ((collectAuthorsDict key cache).map Prod.fst).Nodup := by
  have hflat : collectAuthorsDict key cache =
      (allTaggedMentions cache).foldl (mentionStep key) [] :=
    collectAuthorsDict_eq_flat key cache []
  have hspec := mentionStep_foldl_spec key (allTaggedMentions cache) []
  have hnodup : ((collectAuthorsDict key cache).map Prod.fst).Nodup := by
    rw [hflat]
    exact hspec.2.1 (by simp)
  refine ⟨?_, ?_, hnodup⟩
  · intro kv hkv
    constructor
    · have hfind : dictFind kv.1 (collectAuthorsDict key cache) = some kv.2 := by
        refine dictFind_of_mem hnodup ?_
        rcases kv with ⟨k, v⟩
        exact hkv
      have h2 : dictCount kv.1 (collectAuthorsDict key cache) = (kv.2).episode_count := by
        rw [dictCount, hfind]
      rw [← h2, hflat, hspec.1 kv.1]
      simp [dictCount, dictFind]
    · refine foldl_mentionStep_email_inv key (allTaggedMentions cache) [] ?_ kv ?_
      · intro kv h
        cases h
      · rw [← hflat]
        exact hkv
  · intro identity
    rw [hflat, hspec.2.2 identity]
    simp

/-- The email-keyed aggregation of `list_authors.py` satisfies the claimed
bucketing, exclusion and counting properties. -/
theorem collect_all_authors_spec (cache : List (String × List Episode)) :
    (∀ a ∈ collect_all_authors cache, a.episode_count = countMentions a.id cache)
    ∧ (∀ email, (∃ a ∈ collect_all_authors cache, a.id = email) ↔
        0 < countMentions email cache)
    ∧ ((collect_all_authors cache).map AuthorSummary.id).Nodup := by
  obtain ⟨hentry, hpres, hnodup⟩ := collectAuthorsDict_spec Member.email cache
  have hidmap : ((collectAuthorsDict Member.email cache).map (fun kv =>
      (⟨kv.1, kv.2.name, kv.2.email, kv.2.episode_count,
        kv.2.programs.mergeSort (fun a b => a ≤ b)⟩ : AuthorSummary))).map
        AuthorSummary.id = (collectAuthorsDict Member.email cache).map Prod.fst := by
    rw [List.map_map]
    exact List.map_congr_left (fun kv _ => rfl)
  refine ⟨?_, ?_, ?_⟩
  · intro a ha
    have hmem : a ∈ (collectAuthorsDict Member.email cache).map (fun kv =>
        (⟨kv.1, kv.2.name, kv.2.email, kv.2.episode_count,
          kv.2.programs.mergeSort (fun a b => a ≤ b)⟩ : AuthorSummary)) :=
      (List.mergeSort_perm _ _).mem_iff.mp ha
    rcases List.mem_map.mp hmem with ⟨kv, hkv, rfl⟩
    exact (hentry kv hkv).1
  · intro email
    have h1 : (∃ a ∈ collect_all_authors cache, a.id = email) ↔
        email ∈ (collect_all_authors cache).map AuthorSummary.id :=
      List.mem_map.symm
    rw [h1]
    have hperm : ((collect_all_authors cache).map AuthorSummary.id).Perm
        ((collectAuthorsDict Member.email cache).map Prod.fst) := by
      rw [← hidmap]
      exact (List.mergeSort_perm _ _).map AuthorSummary.id
    rw [hperm.mem_iff]
    exact hpres email
  · have hperm : (((collectAuthorsDict Member.email cache).map (fun kv =>
        (⟨kv.1, kv.2.name, kv.2.email, kv.2.episode_count,
          kv.2.programs.mergeSort (fun a b => a ≤ b)⟩ : AuthorSummary))).map
          AuthorSummary.id).Perm
        ((collect_all_authors cache).map AuthorSummary.id) :=
      ((List.mergeSort_perm _ _).map AuthorSummary.id).symm
    exact hperm.nodup (hidmap ▸ hnodup)

theorem pyGetDefaultEmpty_some {f : Option (Option String)} {s : String}
    (h : pyGetDefaultEmpty f = some s) : pyGetOrEmpty f = s := by
  rcases f with _ | (_ | t)
  · simp only [pyGetDefaultEmpty, Option.some.injEq] at h
    rw [← h]
    rfl
  · simp [pyGetDefaultEmpty] at h
  · simp only [pyGetDefaultEmpty, Option.some.injEq] at h
    rw [← h]
    rfl

theorem processMemberById_safe (pn : String) (d : AuthorsDict)
    (m : Option Member) (h : memberSafe m = true) :
    processMemberById pn d m = some (processMember Member.id pn d m) := by
  cases m with
  | none => rfl
  | some mem =>
    simp only [memberSafe, Bool.and_eq_true, Option.isSome_iff_exists] at h
    obtain ⟨⟨rn, hrn⟩, ri, hri⟩ := h
    rw [show processMemberById pn d (some mem) =
        some (if (pyStrip ri ≠ "" ∧ pyStrip rn ≠ "") then
          addMention (pyStrip ri) (pyStrip rn) pn d else d) by
      simp [processMemberById, hrn, hri]]
    rw [show processMember Member.id pn d (some mem) =
        if (pyStrip ri ≠ "" ∧ pyStrip rn ≠ "") then addMention (pyStrip ri) (pyStrip rn) pn d
        else d by
      simp [processMember, pyGetDefaultEmpty_some hrn, pyGetDefaultEmpty_some hri]]

theorem foldlM_eq_foldl_of_some {α β : Type _} (f : β → α → Option β)
    (g : β → α → β) (l : List α) (h : ∀ a ∈ l, ∀ b, f b a = some (g b a)) :
    ∀ d, l.foldlM f d = some (l.foldl g d) := by
  induction l with
  | nil => intro d; rfl
  | cons x xs ih =>
    intro d
    rw [List.foldlM_cons, h x (List.mem_cons_self x xs) d]
    show List.foldlM f (g d x) xs = some (List.foldl g d (x :: xs))
    rw [List.foldl_cons]
    exact ih (fun a ha b => h a (List.mem_cons_of_mem x ha) b) (g d x)

theorem processEpisodeById_safe (pn : String) (d : AuthorsDict) (e : Episode)
    (h : (e.team.getD []).all memberSafe = true) :
    processEpisodeById pn d e = some (processEpisode Member.id pn d e) :=
  foldlM_eq_foldl_of_some _ _ _
    (fun m hm b => processMemberById_safe pn b m (List.all_eq_true.mp h m hm)) d

theorem processProgramById_safe (d : AuthorsDict) (pr : String × List Episode)
    (h : pr.2.all (fun e => (e.team.getD []).all memberSafe) = true) :
    processProgramById d pr = some (processProgram Member.id d pr) :=
  foldlM_eq_foldl_of_some _ _ _
    (fun e he b => processEpisodeById_safe pr.1 b e (List.all_eq_true.mp h e he)) d

theorem collectAuthorsDictById_safe (cache : List (String × List Episode))
    (h : cacheSafe cache = true) :
    collectAuthorsDictById cache = some (collectAuthorsDict Member.id cache) :=
  foldlM_eq_foldl_of_some _ _ _
    (fun pr hpr b => processProgramById_safe b pr (List.all_eq_true.mp h pr hpr)) []

/-- The id-keyed aggregation of `generate_all_author_feeds.py` on inputs
where it does not raise: it returns the analogous bucketing and counting
properties with the member's `id` field as the identity. -/
theorem collect_all_authors_by_id_spec (cache : List (String × List Episode))
    (hsafe : cacheSafe cache = true) :
    ∃ l, collect_all_authors_by_id cache = some l
      ∧ (∀ a ∈ l, a.episode_count = countMentionsById a.email cache)
      ∧ (∀ memberId, (∃ a ∈ l, a.email = memberId) ↔
          0 < countMentionsById memberId cache)
      ∧ (l.map AuthorEntry.email).Nodup := by
  obtain ⟨hentry, hpres, hnodup⟩ := collectAuthorsDict_spec Member.id cache
  have hdict := collectAuthorsDictById_safe cache hsafe
  have hemap : (((collectAuthorsDict Member.id cache).map (fun kv =>
      (⟨kv.2.name, kv.2.email, kv.2.episode_count, kv.2.programs⟩ : AuthorEntry))).map
        AuthorEntry.email) = (collectAuthorsDict Member.id cache).map Prod.fst := by
    rw [List.map_map]
    exact List.map_congr_left (fun kv hkv => (hentry kv hkv).2)
  refine ⟨(((collectAuthorsDict Member.id cache).map (fun kv =>
    (⟨kv.2.name, kv.2.email, kv.2.episode_count, kv.2.programs⟩ : AuthorEntry))).mergeSort
    (fun a b => b.episode_count ≤ a.episode_count)), ?_, ?_, ?_, ?_⟩
  · rw [collect_all_authors_by_id, hdict]
    rfl
  · intro a ha
    have hmem : a ∈ (collectAuthorsDict Member.id cache).map (fun kv =>
        (⟨kv.2.name, kv.2.email, kv.2.episode_count, kv.2.programs⟩ : AuthorEntry)) :=
      (List.mergeSort_perm _ _).mem_iff.mp ha
    rcases List.mem_map.mp hmem with ⟨kv, hkv, rfl⟩
    show kv.2.episode_count = countMentionsById kv.2.email cache
    rw [(hentry kv hkv).2]
    exact (hentry kv hkv).1
  · intro memberId
    have h1 : (∃ a ∈ (((collectAuthorsDict Member.id cache).map (fun kv =>
        (⟨kv.2.name, kv.2.email, kv.2.episode_count, kv.2.programs⟩ : AuthorEntry))).mergeSort
        (fun a b => b.episode_count ≤ a.episode_count)), a.email = memberId) ↔
        memberId ∈ ((((collectAuthorsDict Member.id cache).map (fun kv =>
          (⟨kv.2.name, kv.2.email, kv.2.episode_count, kv.2.programs⟩ : AuthorEntry))).mergeSort
          (fun a b => b.episode_count ≤ a.episode_count)).map AuthorEntry.email) :=
      List.mem_map.symm
    rw [h1]
    have hperm : (((((collectAuthorsDict Member.id cache).map (fun kv =>
        (⟨kv.2.name, kv.2.email, kv.2.episode_count, kv.2.programs⟩ : AuthorEntry))).mergeSort
        (fun a b => b.episode_count ≤ a.episode_count)).map AuthorEntry.email)).Perm
        ((collectAuthorsDict Member.id cache).map Prod.fst) := by
      rw [← hemap]
      exact (List.mergeSort_perm _ _).map AuthorEntry.email
    rw [hperm.mem_iff]
    exact hpres memberId
  · have hperm : ((((collectAuthorsDict Member.id cache).map (fun kv =>
        (⟨kv.2.name, kv.2.email, kv.2.episode_count, kv.2.programs⟩ : AuthorEntry))).map
          AuthorEntry.email)).Perm
        (((((collectAuthorsDict Member.id cache).map (fun kv =>
          (⟨kv.2.name, kv.2.email, kv.2.episode_count, kv.2.programs⟩ : AuthorEntry))).mergeSort
          (fun a b => b.episode_count ≤ a.episode_count)).map AuthorEntry.email)) :=
      ((List.mergeSort_perm _ _).map AuthorEntry.email).symm
    exact hperm.nodup (hemap ▸ hnodup)

/-- C3 counterexample: a team membership with the non-empty email
`a@x.pl`, a non-empty name and no `id` key.  The claim's aggregation should
expose the identity `a@x.pl` with `episode_count` 1 — `list_authors.py`'s
`collect_all_authors` does — but the co-cited `collect_all_authors` of
`generate_all_author_feeds.py` buckets by the member's `id` field and
returns no author at all, refuting the email-keyed claim for that cited
source. -/
theorem claim_C3_counterexample :
    collect_all_authors_by_id cacheCx = some []
    ∧ countMentions "a@x.pl" cacheCx = 1
    ∧ (collect_all_authors cacheCx).map (fun a => (a.id, a.episode_count)) =
        [("a@x.pl", 1)] := by
  refine ⟨?_, by decide, ?_⟩
  · have hd : collectAuthorsDictById cacheCx = some [] := by decide
    rw [collect_all_authors_by_id, hd, Option.map_some', List.map_nil,
      List.mergeSort_nil]
  · have hd : collectAuthorsDict Member.email cacheCx =
        [("a@x.pl", ⟨"Ala", "a@x.pl", 1, ["P1"]⟩)] := by decide
    rw [collect_all_authors, hd]
    rw [List.map_singleton, List.mergeSort_singleton, List.map_singleton]

/-- C3 (amended): `list_authors.py`'s `collect_all_authors` buckets team
members by their trimmed email — one summary per distinct non-empty email,
an identity present exactly when a counted mention exists, members with an
empty trimmed name or email excluded, and each `episode_count` equal to the
number of team memberships carrying that non-empty email across all cached
episodes.  The `collect_all_authors` of `generate_all_author_feeds.py`
instead reads the member's `id` field as the identity key: whenever no
reached `name`/`id` field is JSON null (otherwise its unguarded
`.get(key, "").strip()` raises), it returns the analogous aggregation keyed
by the trimmed `id` — so a member whose `id` is absent or empty is excluded
there even when it carries a non-empty email. -/
theorem claim_C3_author_aggregation :
    (∀ cache : List (String × List Episode),
      (∀ a ∈ collect_all_authors cache, a.episode_count = countMentions a.id cache)
      ∧ (∀ email, (∃ a ∈ collect_all_authors cache, a.id = email) ↔
          0 < countMentions email cache)
      ∧ ((collect_all_authors cache).map AuthorSummary.id).Nodup)
    ∧ (∀ cache : List (String × List Episode), cacheSafe cache = true →
      ∃ l, collect_all_authors_by_id cache = some l
        ∧ (∀ a ∈ l, a.episode_count = countMentionsById a.email cache)
        ∧ (∀ memberId, (∃ a ∈ l, a.email = memberId) ↔
            0 < countMentionsById memberId cache)
        ∧ (l.map AuthorEntry.email).Nodup) :=
  ⟨collect_all_authors_spec, collect_all_authors_by_id_spec⟩

/-- Witness for C3 (amended) at a concrete input: a cache whose one member
carries string-valued name/id fields is safe, so the by-id variant returns
an aggregation whose counts match the id-keyed mention count. -/
theorem claim_C3_author_aggregation_witness :
    ∃ l, collect_all_authors_by_id cacheW = some l
      ∧ (∀ a ∈ l, a.episode_count = countMentionsById a.email cacheW) := by
  obtain ⟨l, h1, h2, _, _⟩ := claim_C3_author_aggregation.2 cacheW (by decide)
  exact ⟨l, h1, h2⟩

/-! ### Downloader theorem (claim C9) -/

/-- C9: whenever a direct download reports failure — connection error, HTTP
error status, or an error after some chunks were already written — the
destination file does not exist after the call. -/
theorem claim_C9_cleanup_on_failure (pre : Option FileData) (w : DlWorld)
    (h : (download_file pre w).1 = false) :
    (download_file pre w).2 = none := by
  cases w with
  | connectError => cases pre <;> rfl
  | httpError status => cases pre <;> rfl
  | stream chunks midError =>
    cases midError with
    | false => simp [download_file] at h
    | true => rfl

/-- Witness for C9 at a concrete input: a transfer that delivers two chunks
and then fails leaves no destination file, even over a pre-existing one. -/
theorem claim_C9_cleanup_on_failure_witness :
    (download_file (some [1]) (.stream [[2], [3]] true)).2 = none :=
  claim_C9_cleanup_on_failure (some [1]) (.stream [[2], [3]] true) (by decide)

end Radio357
